import Mathlib

/-!
Verification of the OLC flight scorer (`aerofiles/score/olc.py`, class `Scorer`).

The numeric code operates on numpy float arrays; we embed the scores over
`ℚ` (exact arithmetic, decidable comparisons).  A distance matrix is a
total function `Nat → Nat → ℚ`; the Python code only ever reads entries
`D[k, j]` with `j ≤ k < knots`, so the total-function model agrees with
the array on every entry the algorithm touches.  Altitude arrays are
likewise `Nat → ℚ`.

`np.max` over a nonempty 1-D array is `listMax`; `np.argmax` (which
returns the first index attaining the maximum) is `listArgmax`; the array
slice `a[:k+1]` holding values `f 0 … f k` is `prefixRow f k`.
-/

/-- Binary maximum on `ℚ`, written so that the kernel and `simp` can
evaluate it on literals. -/
def qmax (a b : ℚ) : ℚ := if a ≤ b then b else a

/-- Model of `np.max` over a 1-D array (the Python code only applies it to
nonempty arrays; the `[]` case is junk). -/
def listMax : List ℚ → ℚ
  | [] => 0
  | [x] => x
  | x :: y :: t => qmax x (listMax (y :: t))

/-- Model of `np.argmax` over a 1-D array: index of the first occurrence of
the maximum (numpy returns the first maximal index, so an entry strictly
below the maximum of the tail yields the tail's argmax shifted by one, and
otherwise the head — index 0 — already attains the overall maximum). -/
def listArgmax : List ℚ → Nat
  | [] => 0
  | [_] => 0
  | x :: y :: t => if x < listMax (y :: t) then listArgmax (y :: t) + 1 else 0

/-- The value list `[f 0, …, f k]` of the numpy slice `arr[:k+1]` of an
array with entries `arr[j] = f j`. -/
def prefixRow (f : Nat → ℚ) (k : Nat) : List ℚ := (List.range (k+1)).map f

/-- `Scorer.find_graph(dist_matrix, forbidden_start_index)`.

Python:
```
knots = np.shape(dist_matrix)[0]
graph = np.zeros((self.layers, knots))
graph[0, forbidden_start_index] = -10000
for k in range(0, knots):
    for l in range(self.layers-1):
        options_graph = graph[l,:k+1] + dist_matrix[k,:k+1]
        graph[l+1,k] = np.max(options_graph)
```
The outer loop runs over `k` in increasing order and the inner one over
`l` in increasing order, so when `graph[l+1,k]` is written every entry
`graph[l, j]` with `j ≤ k` already holds its final value; the table is
therefore the unique solution of the recurrence below.  The forbidden
start set is modelled as a Boolean predicate; entry `(0, k)` is the
sentinel `-10000` on forbidden `k` and `0` otherwise. -/
def find_graph (D : Nat → Nat → ℚ) (F : Nat → Bool) : Nat → Nat → ℚ
  | 0 => fun k => if F k then -10000 else 0
  | l+1 => fun k => listMax (prefixRow (fun j => find_graph D F l j + D k j) k)

theorem find_graph_zero (D : Nat → Nat → ℚ) (F : Nat → Bool) (k : Nat) :
    find_graph D F 0 k = if F k then -10000 else 0 := rfl

theorem find_graph_succ (D : Nat → Nat → ℚ) (F : Nat → Bool) (l k : Nat) :
    find_graph D F (l+1) k
      = listMax (prefixRow (fun j => find_graph D F l j + D k j) k) := rfl

/-- The flattened value list of the numpy slice `graph[layers-1:]` of a
`(layers, knots)`-shaped table: all rows from index `layers-1` on,
concatenated (`np.argmax` flattens its argument). -/
def lastRowsFlatten (graph : Nat → Nat → ℚ) (layers knots : Nat) : List ℚ :=
  (((List.range layers).drop (layers - 1)).map
    (fun l => (List.range knots).map (graph l))).flatten

/-- The reversed-path accumulator of `Scorer.find_path`: starting from
vertex `e`, perform `n` backward steps; the step at layer `l` is
`np.argmax(dist_matrix[cur,:cur+1] + graph[l,:cur+1])` with `l` counting
down from `n-1` to `0`. -/
def find_path_rev (graph D : Nat → Nat → ℚ) : Nat → Nat → List Nat
  | 0, e => [e]
  | l+1, e =>
      e :: find_path_rev graph D l
        (listArgmax (prefixRow (fun j => D e j + graph l j) e))

/-- `Scorer.find_path(graph, dist_matrix, reverse_from)`.

Python:
```
if reverse_from is not None:
    path = [reverse_from]
else:
    path = [np.argmax(graph[self.layers-1:])]
for l in reversed(range(self.layers-1)):
    path.append(np.argmax(dist_matrix[path[-1],:path[-1]+1]+graph[l,:path[-1]+1]))
return list(reversed(path))
```
`graph[self.layers-1:]` is the un-parenthesised row slice (rows
`layers-1 …` of the 2-D table), which `np.argmax` flattens. -/
def find_path (graph D : Nat → Nat → ℚ) (layers knots : Nat)
    (reverse_from : Option Nat) : List Nat :=
  let e := match reverse_from with
    | some r => r
    | none => listArgmax (lastRowsFlatten graph layers knots)
  (find_path_rev graph D (layers - 1) e).reverse

/-- `Scorer.score` after the distance matrix has been built
(`self.layers = 7`): unconstrained graph, then path reconstruction with
`reverse_from=None`. -/
def score (D : Nat → Nat → ℚ) (knots : Nat) : List Nat :=
  find_path (find_graph D (fun _ => false)) D 7 knots none

/-- `check_alt(alt, path)` inside `Scorer.score_with_height`:
`alt[path[0]] - alt[path[-1]] <= 1000`; every call site passes a
nonempty path, so the `headD`/`getLastD` defaults are never consulted. -/
def check_alt (alt : Nat → ℚ) (path : List Nat) : Bool :=
  decide (alt (path.headD 0) - alt (path.getLastD 0) ≤ 1000)

/-- `graph[self.layers-1, :]` as a list: the last row of a
`(layers, knots)` table. -/
def lastRow (graph : Nat → Nat → ℚ) (layers knots : Nat) : List ℚ :=
  (List.range knots).map (graph (layers - 1))

/-- Numpy fancy assignment `row[idxs] = 0` for a list of indices (the
Python loop mutates `graph[self.layers-1, calculated] = 0`). -/
def setZeros (row : List ℚ) (idxs : List Nat) : List ℚ :=
  idxs.foldl (fun r i => r.set i 0) row

/-- The mutable state carried across iterations of the `while True` loop
of `Scorer.score_with_height`: the last row of the current (zeroed)
graph, the `calculated` list, the lower bound, the best path so far, and
the last row of `original_graph`.  Everything else is recomputed from the
distance matrix inside each iteration. -/
structure HState where
  row : List ℚ
  calcd : List Nat
  lb : ℚ
  best : List Nat
  orig : List ℚ
deriving DecidableEq

/-- One iteration of the `while True` loop of `Scorer.score_with_height`:

```
reverse_from = np.argmax(graph[self.layers-1,:])
forbidden_start_index = np.nonzero(self.alt-self.alt[reverse_from] > 1000)[0]
graph = self.find_graph(dist_matrix, forbidden_start_index)
path = self.find_path(graph, dist_matrix, reverse_from=reverse_from)
distance = graph[self.layers-1,reverse_from]
if distance > lower_bound:
    lower_bound = distance
    best_path = path
calculated.append(path[-1])
graph[self.layers-1, calculated] = 0
original_graph[self.layers-1, calculated] = 0
remaining = np.nonzero(original_graph[self.layers-1,:] > lower_bound)[0]
if not len(remaining):
    return best_path
```
`Sum.inl` is "loop again with this state", `Sum.inr` is "return". -/
def swhStep (D : Nat → Nat → ℚ) (alt : Nat → ℚ) (N : Nat) :
    HState → HState ⊕ List Nat
  | ⟨row, calcd, lb, best, orig⟩ =>
      let e := listArgmax row
      let F : Nat → Bool := fun j => decide (alt j - alt e > 1000)
      let g := find_graph D F
      let path := find_path g D 7 N (some e)
      let dist := g 6 e
      let lb' := if lb < dist then dist else lb
      let best' := if lb < dist then path else best
      let calcd' := calcd ++ [path.getLastD 0]
      let row' := setZeros (lastRow g 7 N) calcd'
      let orig' := setZeros orig calcd'
      if orig'.any (fun x => decide (lb' < x)) then
        Sum.inl ⟨row', calcd', lb', best', orig'⟩
      else
        Sum.inr best'

/-- Fuel-indexed run of the `while True` loop; `none` means the loop has
not returned within `fuel` iterations. -/
def swhLoop (D : Nat → Nat → ℚ) (alt : Nat → ℚ) (N : Nat) :
    Nat → HState → Option (List Nat)
  | 0, _ => none
  | fuel+1, s =>
      match swhStep D alt N s with
      | Sum.inl s' => swhLoop D alt N fuel s'
      | Sum.inr p => some p

/-- `Scorer.score_with_height` after the distance matrix has been built
(`self.layers = 7`): if the unconstrained path already satisfies the
altitude predicate return it, otherwise enter the branch-and-bound loop
with `calculated = []`, `lower_bound = 0`, `best_path = []` and
`original_graph` a copy of the unconstrained graph.  The loop itself is
given `fuel` iterations; `none` reports non-termination within `fuel`. -/
def score_with_height (D : Nat → Nat → ℚ) (alt : Nat → ℚ) (N fuel : Nat) :
    Option (List Nat) :=
  let g := find_graph D (fun _ => false)
  let path := find_path g D 7 N none
  if check_alt alt path then some path
  else swhLoop D alt N fuel ⟨lastRow g 7 N, [], 0, [], lastRow g 7 N⟩

/-- The total of a path: the sum of `D[path[t], path[t+1]]` over
consecutive vertices (`Scorer.find_distance` with the projected matrix in
place of the haversine distance). -/
def pathScore (D : Nat → Nat → ℚ) : List Nat → ℚ
  | a :: b :: rest => D a b + pathScore D (b :: rest)
  | _ => 0

/-- The DP total reported for a `layers`-leg run on `knots` fixes: the
maximum entry of the last layer row. -/
def dpTotal (D : Nat → Nat → ℚ) (layers knots : Nat) : ℚ :=
  listMax (lastRow (find_graph D (fun _ => false)) layers knots)

/-- Spec §3: a valid turnpoint sequence for `G[l, k]` — `l+1` indices,
non-decreasing, ending at `k`. -/
def IsLegSeq (l k : Nat) (p : List Nat) : Prop :=
  p.length = l + 1 ∧ List.Chain' (· ≤ ·) p ∧ p.getLast? = some k

example : find_graph (fun i j => if i = j then 0 else 1) (fun _ => false) 6 2 = 2 := by
  norm_num [find_graph, listMax, qmax, prefixRow, List.range_succ]

example : score (fun i j => if i = j then 0 else 1) 2 = [0, 0, 0, 0, 0, 0, 1] := by
  norm_num [score, find_path, find_path_rev, find_graph, lastRowsFlatten, lastRow,
    listMax, listArgmax, qmax, prefixRow, List.range_succ]

/-! ### Basic facts about `qmax`, `listMax`, `listArgmax`, `prefixRow` -/

theorem le_qmax_left (a b : ℚ) : a ≤ qmax a b := by
  unfold qmax; split
  · assumption
  · exact le_refl a

theorem le_qmax_right (a b : ℚ) : b ≤ qmax a b := by
  unfold qmax; split
  · exact le_refl b
  · exact le_of_not_le (by assumption)

theorem qmax_le (a b c : ℚ) (ha : a ≤ c) (hb : b ≤ c) : qmax a b ≤ c := by
  unfold qmax; split
  · exact hb
  · exact ha

theorem qmax_cases (a b : ℚ) : qmax a b = a ∨ qmax a b = b := by
  unfold qmax; split
  · exact Or.inr rfl
  · exact Or.inl rfl

theorem le_listMax (xs : List ℚ) (x : ℚ) (hx : x ∈ xs) : x ≤ listMax xs := by
  induction xs with
  | nil => cases hx
  | cons a t ih =>
    cases t with
    | nil =>
      rcases List.mem_singleton.mp hx with rfl
      exact le_refl _
    | cons b t2 =>
      rcases List.mem_cons.mp hx with rfl | h
      · exact le_qmax_left _ _
      · exact le_trans (ih h) (le_qmax_right _ _)

theorem listMax_le (xs : List ℚ) (c : ℚ) (hne : xs ≠ [])
    (h : ∀ x ∈ xs, x ≤ c) : listMax xs ≤ c := by
  induction xs with
  | nil => exact absurd rfl hne
  | cons a t ih =>
    cases t with
    | nil => exact h a (List.mem_singleton.mpr rfl)
    | cons b t2 =>
      refine qmax_le _ _ _ (h a (List.mem_cons_self _ _)) (ih (by simp) ?_)
      intro x hx
      exact h x (List.mem_cons_of_mem _ hx)

theorem listMax_mem (xs : List ℚ) (hne : xs ≠ []) : listMax xs ∈ xs := by
  induction xs with
  | nil => exact absurd rfl hne
  | cons a t ih =>
    cases t with
    | nil => exact List.mem_singleton.mpr rfl
    | cons b t2 =>
      show qmax a (listMax (b :: t2)) ∈ a :: b :: t2
      rcases qmax_cases a (listMax (b :: t2)) with h | h
      · rw [h]; exact List.mem_cons_self _ _
      · rw [h]; exact List.mem_cons_of_mem _ (ih (by simp))

theorem listArgmax_lt_length (xs : List ℚ) (hne : xs ≠ []) :
    listArgmax xs < xs.length := by
  induction xs with
  | nil => exact absurd rfl hne
  | cons a t ih =>
    cases t with
    | nil => simp [listArgmax]
    | cons b t2 =>
      show (if a < listMax (b :: t2) then listArgmax (b :: t2) + 1 else 0)
        < (a :: b :: t2).length
      split
      · have := ih (by simp)
        simpa [Nat.succ_lt_succ_iff] using this
      · simp

theorem getD_listArgmax (xs : List ℚ) (hne : xs ≠ []) :
    xs.getD (listArgmax xs) 0 = listMax xs := by
  induction xs with
  | nil => exact absurd rfl hne
  | cons a t ih =>
    cases t with
    | nil => simp [listArgmax, listMax]
    | cons b t2 =>
      show (a :: b :: t2).getD
        (if a < listMax (b :: t2) then listArgmax (b :: t2) + 1 else 0) 0
        = qmax a (listMax (b :: t2))
      split
      · rename_i hlt
        have h1 : (a :: b :: t2).getD (listArgmax (b :: t2) + 1) 0
            = (b :: t2).getD (listArgmax (b :: t2)) 0 := rfl
        rw [h1, ih (by simp)]
        unfold qmax
        rw [if_pos (le_of_lt hlt)]
      · rename_i hlt
        have h2 : listMax (b :: t2) ≤ a := le_of_not_lt hlt
        show a = qmax a (listMax (b :: t2))
        unfold qmax
        split
        · exact le_antisymm (by assumption) h2
        · rfl

theorem getD_lt_of_lt_listArgmax (xs : List ℚ) (i : Nat)
    (hi : i < listArgmax xs) : xs.getD i 0 < listMax xs := by
  induction xs generalizing i with
  | nil => simp [listArgmax] at hi
  | cons a t ih =>
    cases t with
    | nil => simp [listArgmax] at hi
    | cons b t2 =>
      have hsplit : (listArgmax (a :: b :: t2))
          = if a < listMax (b :: t2) then listArgmax (b :: t2) + 1 else 0 := rfl
      rw [hsplit] at hi
      by_cases hlt : a < listMax (b :: t2)
      · rw [if_pos hlt] at hi
        have hmax : listMax (a :: b :: t2) = qmax a (listMax (b :: t2)) := rfl
        have hq : qmax a (listMax (b :: t2)) = listMax (b :: t2) := by
          unfold qmax; rw [if_pos (le_of_lt hlt)]
        cases i with
        | zero =>
          rw [hmax, hq]
          exact hlt
        | succ j =>
          have hj : j < listArgmax (b :: t2) := Nat.lt_of_succ_lt_succ hi
          have : (a :: b :: t2).getD (j + 1) 0 = (b :: t2).getD j 0 := rfl
          rw [this, hmax, hq]
          exact ih j hj
      · rw [if_neg hlt] at hi
        cases hi

theorem listArgmax_le_of_maximal (xs : List ℚ) (i : Nat)
    (_hmem : i < xs.length) (hmax : listMax xs ≤ xs.getD i 0) :
    listArgmax xs ≤ i := by
  by_contra h
  have hlt := getD_lt_of_lt_listArgmax xs i (Nat.lt_of_not_le h)
  exact absurd hmax (not_le_of_lt hlt)

/-! `prefixRow` versions, phrased over the generating function. -/

theorem prefixRow_ne_nil (f : Nat → ℚ) (k : Nat) : prefixRow f k ≠ [] := by
  unfold prefixRow
  simp [List.range_succ]

theorem length_prefixRow (f : Nat → ℚ) (k : Nat) :
    (prefixRow f k).length = k + 1 := by
  simp [prefixRow]

theorem getD_prefixRow (f : Nat → ℚ) (k j : Nat) (hj : j ≤ k) :
    (prefixRow f k).getD j 0 = f j := by
  unfold prefixRow
  rw [List.getD_eq_getElem?_getD]
  rw [List.getElem?_map]
  rw [List.getElem?_range (Nat.lt_succ_of_le hj)]
  rfl

theorem mem_prefixRow (f : Nat → ℚ) (k : Nat) (x : ℚ) :
    x ∈ prefixRow f k ↔ ∃ j, j ≤ k ∧ f j = x := by
  unfold prefixRow
  simp [List.mem_map, List.mem_range, Nat.lt_succ_iff]

theorem le_prefixMax (f : Nat → ℚ) (k j : Nat) (hj : j ≤ k) :
    f j ≤ listMax (prefixRow f k) := by
  refine le_listMax _ _ ?_
  exact (mem_prefixRow f k (f j)).mpr ⟨j, hj, rfl⟩

theorem prefixMax_le (f : Nat → ℚ) (k : Nat) (c : ℚ)
    (h : ∀ j, j ≤ k → f j ≤ c) : listMax (prefixRow f k) ≤ c := by
  refine listMax_le _ _ (prefixRow_ne_nil f k) ?_
  intro x hx
  rcases (mem_prefixRow f k x).mp hx with ⟨j, hj, rfl⟩
  exact h j hj

theorem prefixMax_achieved (f : Nat → ℚ) (k : Nat) :
    ∃ j, j ≤ k ∧ listMax (prefixRow f k) = f j := by
  rcases (mem_prefixRow f k _).mp (listMax_mem _ (prefixRow_ne_nil f k)) with ⟨j, hj, hfj⟩
  exact ⟨j, hj, hfj.symm⟩

theorem prefixArgmax_le (f : Nat → ℚ) (k : Nat) :
    listArgmax (prefixRow f k) ≤ k := by
  have := listArgmax_lt_length (prefixRow f k) (prefixRow_ne_nil f k)
  rw [length_prefixRow] at this
  exact Nat.lt_succ_iff.mp this

theorem prefixArgmax_val (f : Nat → ℚ) (k : Nat) :
    f (listArgmax (prefixRow f k)) = listMax (prefixRow f k) := by
  have h := getD_listArgmax (prefixRow f k) (prefixRow_ne_nil f k)
  rw [getD_prefixRow f k _ (prefixArgmax_le f k)] at h
  exact h

theorem prefixArgmax_min (f : Nat → ℚ) (k j : Nat) (hj : j ≤ k)
    (h : listMax (prefixRow f k) ≤ f j) : listArgmax (prefixRow f k) ≤ j := by
  refine listArgmax_le_of_maximal _ _ ?_ ?_
  · rw [length_prefixRow]; exact Nat.lt_succ_of_le hj
  · rw [getD_prefixRow f k j hj]; exact h

/-! ### Structure of `find_path_rev` and `pathScore` -/

theorem prefixRow_congr (f f' : Nat → ℚ) (k : Nat) (h : ∀ j, j ≤ k → f j = f' j) :
    prefixRow f k = prefixRow f' k := by
  unfold prefixRow
  refine List.map_congr_left ?_
  intro j hj
  exact h j (Nat.lt_succ_iff.mp (List.mem_range.mp hj))

theorem fpr_length (g D : Nat → Nat → ℚ) (n e : Nat) :
    (find_path_rev g D n e).length = n + 1 := by
  induction n generalizing e with
  | zero => rfl
  | succ m ih => simp [find_path_rev, ih]

theorem fpr_ne_nil (g D : Nat → Nat → ℚ) (n e : Nat) :
    find_path_rev g D n e ≠ [] := by
  have h := fpr_length g D n e
  intro hnil
  rw [hnil] at h
  simp at h

theorem fpr_head (g D : Nat → Nat → ℚ) (n e : Nat) :
    (find_path_rev g D n e).head? = some e := by
  cases n <;> rfl

theorem fpr_getD_zero (g D : Nat → Nat → ℚ) (n e : Nat) :
    (find_path_rev g D n e).getD 0 0 = e := by
  cases n <;> rfl

/-- Consecutive entries of the reversed path: entry `i+1` is the argmax of
`dist[cur,:cur+1] + graph[n-1-i,:cur+1]` where `cur` is entry `i`. -/
theorem fpr_getD_succ (g D : Nat → Nat → ℚ) :
    ∀ (n e i : Nat), i < n →
      (find_path_rev g D n e).getD (i+1) 0
        = listArgmax (prefixRow
            (fun j => D ((find_path_rev g D n e).getD i 0) j
              + g (n-1-i) j)
            ((find_path_rev g D n e).getD i 0)) := by
  intro n
  induction n with
  | zero => intro e i hi; cases hi
  | succ m ih =>
    intro e i hi
    cases i with
    | zero =>
      show (find_path_rev g D (m+1) e).getD 1 0 = _
      have h0 : (find_path_rev g D (m+1) e).getD 0 0 = e := fpr_getD_zero g D _ e
      rw [h0]
      show (find_path_rev g D m
        (listArgmax (prefixRow (fun j => D e j + g m j) e))).getD 0 0 = _
      rw [fpr_getD_zero]
      have hm : m + 1 - 1 - 0 = m := by omega
      rw [hm]
    | succ i' =>
      have hi' : i' < m := Nat.lt_of_succ_lt_succ hi
      have hcons : find_path_rev g D (m+1) e
          = e :: find_path_rev g D m
              (listArgmax (prefixRow (fun j => D e j + g m j) e)) := rfl
      rw [hcons]
      have hgd : ∀ (a : Nat) (l : List Nat) (t : Nat), (a :: l).getD (t+1) 0 = l.getD t 0 := by
        intro a l t; rfl
      rw [hgd, hgd, ih _ i' hi']
      have harith : m - 1 - i' = m + 1 - 1 - (i' + 1) := by omega
      rw [harith]

theorem pathScore_cons (D : Nat → Nat → ℚ) (a h : Nat) (l : List Nat)
    (hh : l.head? = some h) : pathScore D (a :: l) = D a h + pathScore D l := by
  cases l with
  | nil => cases hh
  | cons b t =>
    have hb : b = h := by
      simpa using hh
    subst hb
    rfl

theorem pathScore_append_last (D : Nat → Nat → ℚ) :
    ∀ (p : List Nat) (j k : Nat), p.getLast? = some j →
      pathScore D (p ++ [k]) = pathScore D p + D j k := by
  intro p
  induction p with
  | nil => intro j k hj; cases hj
  | cons a t ih =>
    intro j k hj
    cases t with
    | nil =>
      have ha : a = j := by simpa using hj
      subst ha
      show pathScore D [a, k] = pathScore D [a] + D a k
      show D a k + 0 = 0 + D a k
      ring
    | cons b t2 =>
      have hj2 : (b :: t2).getLast? = some j := by
        rw [← hj]
        exact (List.getLast?_cons_cons).symm
      have h1 : pathScore D ((a :: b :: t2) ++ [k])
          = D a b + pathScore D ((b :: t2) ++ [k]) := rfl
      have h2 : pathScore D (a :: b :: t2) = D a b + pathScore D (b :: t2) := rfl
      rw [h1, h2, ih j k hj2]
      ring

/-! ### Reversal and default-accessor bridges -/

theorem headD_reverse (l : List Nat) : (l.reverse).headD 0 = l.getLastD 0 := by
  rw [List.headD_eq_head?, List.getLastD_eq_getLast?, List.head?_reverse]

theorem getLastD_reverse (l : List Nat) : (l.reverse).getLastD 0 = l.headD 0 := by
  rw [List.headD_eq_head?, List.getLastD_eq_getLast?, List.getLast?_reverse]

theorem getLastD_cons_of_ne_nil (l : List Nat) (a d : Nat) (h : l ≠ []) :
    (a :: l).getLastD d = l.getLastD d := by
  cases l with
  | nil => exact absurd rfl h
  | cons b t => rfl

theorem pathScore_reverse (D : Nat → Nat → ℚ) (hsym : ∀ i j, D i j = D j i) :
    ∀ p : List Nat, pathScore D p.reverse = pathScore D p := by
  intro p
  induction p with
  | nil => rfl
  | cons a t ih =>
    cases t with
    | nil => rfl
    | cons b t2 =>
      have hrev : (a :: b :: t2).reverse = (b :: t2).reverse ++ [a] := by
        simp
      have hlast : ((b :: t2).reverse).getLast? = some b := by
        rw [List.getLast?_reverse]
        rfl
      rw [hrev, pathScore_append_last D _ b a hlast, ih]
      have h2 : pathScore D (a :: b :: t2) = D a b + pathScore D (b :: t2) := rfl
      rw [h2, hsym a b]
      ring

/-! ### The reconstructed path realises the table entry (empty mask) -/

theorem fpr_score (D : Nat → Nat → ℚ) :
    ∀ n e, pathScore D (find_path_rev (find_graph D (fun _ => false)) D n e)
      = find_graph D (fun _ => false) n e := by
  intro n
  induction n with
  | zero =>
    intro e
    show (0 : ℚ) = find_graph D (fun _ => false) 0 e
    rw [find_graph_zero]
    rfl
  | succ m ih =>
    intro e
    set g := find_graph D (fun _ => false) with hg
    set jstar := listArgmax (prefixRow (fun j => D e j + g m j) e) with hjstar
    have hcons : find_path_rev g D (m+1) e = e :: find_path_rev g D m jstar := rfl
    have hhead : (find_path_rev g D m jstar).head? = some jstar := fpr_head g D m jstar
    rw [hcons, pathScore_cons D e jstar _ hhead, ih jstar]
    have hval : D e jstar + g m jstar
        = listMax (prefixRow (fun j => D e j + g m j) e) := by
      rw [hjstar]
      exact prefixArgmax_val (fun j => D e j + g m j) e
    rw [hval]
    have hcongr : prefixRow (fun j => D e j + g m j) e
        = prefixRow (fun j => g m j + D e j) e := by
      refine prefixRow_congr _ _ _ ?_
      intro j hj
      ring
    rw [hcongr, ← find_graph_succ]

/-! ### Forbidden-start masks: good and bad prefixes -/

/-- An index `j` is a *good* horizon if some index `i ≤ j` is not
forbidden: a DP path ending at `j` can depart from a legal start. -/
def GoodStart (F : Nat → Bool) (j : Nat) : Prop := ∃ i, i ≤ j ∧ F i = false

theorem bad_of_not_good (F : Nat → Bool) (j : Nat) (h : ¬ GoodStart F j) :
    ∀ i, i ≤ j → F i = true := by
  intro i hi
  by_contra hF
  exact h ⟨i, hi, by simpa using hF⟩

/-- Any table entry of a non-forbidden column is non-negative (the DP can
always loop in place, and distances are non-negative). -/
theorem fg_nonneg_of_notF (D : Nat → Nat → ℚ) (F : Nat → Bool)
    (hnn : ∀ a b, 0 ≤ D a b) (i : Nat) (hFi : F i = false) :
    ∀ l, 0 ≤ find_graph D F l i := by
  intro l
  induction l with
  | zero =>
    rw [find_graph_zero, hFi]
    norm_num
  | succ m ih =>
    rw [find_graph_succ]
    have hle : find_graph D F m i + D i i
        ≤ listMax (prefixRow (fun j => find_graph D F m j + D i j) i) :=
      le_prefixMax (fun j => find_graph D F m j + D i j) i i (le_refl i)
    have := hnn i i
    linarith

/-- If every index up to `j` is forbidden, the table entry stays within
`l * 1000` of the sentinel (each leg adds at most the distance bound). -/
theorem fg_bad_le (D : Nat → Nat → ℚ) (F : Nat → Bool)
    (hb : ∀ a b, D a b ≤ 1000) :
    ∀ l j, (∀ i, i ≤ j → F i = true) →
      find_graph D F l j ≤ -10000 + (l : ℚ) * 1000 := by
  intro l
  induction l with
  | zero =>
    intro j hbad
    rw [find_graph_zero, hbad j (le_refl j)]
    norm_num
  | succ m ih =>
    intro j hbad
    rw [find_graph_succ]
    refine prefixMax_le _ _ _ ?_
    intro i hi
    have hbadi : ∀ t, t ≤ i → F t = true := fun t ht => hbad t (le_trans ht hi)
    have h1 := ih i hbadi
    have h2 := hb j i
    push_cast
    linarith

/-- A backward reconstruction step from a good horizon lands on a good
horizon (for layers `l ≤ 8`, the sentinel dominates any achievable sum). -/
theorem step_good (D : Nat → Nat → ℚ) (F : Nat → Bool)
    (hnn : ∀ a b, 0 ≤ D a b) (hb : ∀ a b, D a b ≤ 1000)
    (l : Nat) (hl : l ≤ 8) (cur : Nat) (hg : GoodStart F cur) :
    GoodStart F (listArgmax
      (prefixRow (fun j => D cur j + find_graph D F l j) cur)) := by
  set f := fun j => D cur j + find_graph D F l j with hf
  set jstar := listArgmax (prefixRow f cur) with hjstar
  by_cases hgj : GoodStart F jstar
  · exact hgj
  exfalso
  have hbad := bad_of_not_good F jstar hgj
  obtain ⟨i0, hi0le, hi0F⟩ := hg
  have hfi0 : 0 ≤ f i0 := by
    have h1 := hnn cur i0
    have h2 := fg_nonneg_of_notF D F hnn i0 hi0F l
    simp only [hf]
    linarith
  have hmax : f jstar = listMax (prefixRow f cur) := prefixArgmax_val f cur
  have hge : 0 ≤ f jstar := by
    rw [hmax]
    exact le_trans hfi0 (le_prefixMax f cur i0 hi0le)
  have hlt : f jstar < 0 := by
    have h1 := fg_bad_le D F hb l jstar hbad
    have h2 := hb cur jstar
    have h3 : (l : ℚ) ≤ 8 := by exact_mod_cast hl
    simp only [hf]
    nlinarith
  linarith

/-- The final backward step (layer 0) from a good horizon lands on a
non-forbidden index. -/
theorem step0_notF (D : Nat → Nat → ℚ) (F : Nat → Bool)
    (hnn : ∀ a b, 0 ≤ D a b) (hb : ∀ a b, D a b ≤ 1000)
    (cur : Nat) (hg : GoodStart F cur) :
    F (listArgmax
      (prefixRow (fun j => D cur j + find_graph D F 0 j) cur)) = false := by
  set f := fun j => D cur j + find_graph D F 0 j with hf
  set jstar := listArgmax (prefixRow f cur) with hjstar
  by_cases hF : F jstar = false
  · exact hF
  exfalso
  have hFt : F jstar = true := by
    cases h : F jstar
    · exact absurd h hF
    · rfl
  obtain ⟨i0, hi0le, hi0F⟩ := hg
  have hfi0 : 0 ≤ f i0 := by
    have h1 := hnn cur i0
    have h2 : find_graph D F 0 i0 = 0 := by
      rw [find_graph_zero, hi0F]
      norm_num
    simp only [hf]
    rw [h2]
    linarith
  have hmax : f jstar = listMax (prefixRow f cur) := prefixArgmax_val f cur
  have hge : 0 ≤ f jstar := by
    rw [hmax]
    exact le_trans hfi0 (le_prefixMax f cur i0 hi0le)
  have hlt : f jstar < 0 := by
    have h2 := hb cur jstar
    have h3 : find_graph D F 0 jstar = -10000 := by
      rw [find_graph_zero, hFt]
      norm_num
    simp only [hf]
    rw [h3]
    linarith
  linarith

/-- The first vertex of the reconstructed (reversed) path is never a
forbidden start, provided the endpoint has a legal start below it and at
most 7 backward steps are taken. -/
theorem fpr_last_notF (D : Nat → Nat → ℚ) (F : Nat → Bool)
    (hnn : ∀ a b, 0 ≤ D a b) (hb : ∀ a b, D a b ≤ 1000) :
    ∀ n, 1 ≤ n → n ≤ 7 → ∀ cur, GoodStart F cur →
      F ((find_path_rev (find_graph D F) D n cur).getLastD 0) = false := by
  intro n
  induction n with
  | zero => intro h1 _ _ _; cases h1
  | succ m ih =>
    intro _ hle cur hg
    set g := find_graph D F with hgdef
    set jstar := listArgmax (prefixRow (fun j => D cur j + g m j) cur) with hjstar
    have hcons : find_path_rev g D (m+1) cur = cur :: find_path_rev g D m jstar := rfl
    rw [hcons, getLastD_cons_of_ne_nil _ _ _ (fpr_ne_nil g D m jstar)]
    cases m with
    | zero =>
      show F ((find_path_rev g D 0 jstar).getLastD 0) = false
      show F ([jstar].getLastD 0) = false
      show F jstar = false
      exact step0_notF D F hnn hb cur hg
    | succ m' =>
      have hgood : GoodStart F jstar :=
        step_good D F hnn hb (m'+1) (by omega) cur hg
      exact ih (by omega) (by omega) jstar hgood

/-! ### `find_path` with an explicit endpoint -/

theorem find_path_some (g D : Nat → Nat → ℚ) (layers N e : Nat) :
    find_path g D layers N (some e) = (find_path_rev g D (layers - 1) e).reverse := rfl

theorem find_path_getLastD_some (g D : Nat → Nat → ℚ) (layers N e : Nat) :
    (find_path g D layers N (some e)).getLastD 0 = e := by
  rw [find_path_some, getLastD_reverse, List.headD_eq_head?, fpr_head]
  rfl

theorem find_path_headD_some (g D : Nat → Nat → ℚ) (layers N e : Nat) :
    (find_path g D layers N (some e)).headD 0
      = (find_path_rev g D (layers - 1) e).getLastD 0 := by
  rw [find_path_some, headD_reverse]

theorem find_path_length_some (g D : Nat → Nat → ℚ) (layers N e : Nat) :
    (find_path g D layers N (some e)).length = (layers - 1) + 1 := by
  rw [find_path_some, List.length_reverse, fpr_length]

theorem find_path_getLast_some (g D : Nat → Nat → ℚ) (layers N e : Nat) :
    (find_path g D layers N (some e)).getLast? = some e := by
  rw [find_path_some, List.getLast?_reverse, fpr_head]

/-- In an iteration of `score_with_height`'s loop with endpoint `e` and the
mask `alt[j] - alt[e] > 1000`, the first vertex of the reconstructed path
is never masked: the `-10000` sentinel dominates any sum of at most 6
legs of masked-scale (≤ 1000 each) distances. -/
theorem swh_start_notF (D : Nat → Nat → ℚ) (alt : Nat → ℚ) (e N : Nat)
    (hnn : ∀ i j, 0 ≤ D i j) (hb : ∀ i j, D i j ≤ 1000) :
    decide (alt ((find_path
        (find_graph D (fun i => decide (alt i - alt e > 1000)))
        D 7 N (some e)).headD 0) - alt e > 1000) = false := by
  set F : Nat → Bool := fun i => decide (alt i - alt e > 1000) with hF
  have hFe : F e = false := by
    rw [hF]
    have : ¬ (alt e - alt e > 1000) := by
      rw [sub_self]
      norm_num
    exact decide_eq_false this
  have hgood : GoodStart F e := ⟨e, le_refl e, hFe⟩
  have h7 : (find_path (find_graph D F) D 7 N (some e)).headD 0
      = (find_path_rev (find_graph D F) D 6 e).getLastD 0 :=
    find_path_headD_some (find_graph D F) D 7 N e
  rw [h7]
  exact fpr_last_notF D F hnn hb 6 (by norm_num) (by norm_num) e hgood

/-- The altitude predicate, phrased on optional head/last so that the
empty path is vacuously fine. -/
def OkPath (alt : Nat → ℚ) (p : List Nat) : Prop :=
  ∀ a b, p.head? = some a → p.getLast? = some b → alt a - alt b ≤ 1000

theorem okPath_nil (alt : Nat → ℚ) : OkPath alt [] := by
  intro a b ha _
  cases ha

/-- Any path produced inside an iteration of the loop satisfies the
altitude predicate. -/
theorem swh_iter_path_ok (D : Nat → Nat → ℚ) (alt : Nat → ℚ) (e N : Nat)
    (hnn : ∀ i j, 0 ≤ D i j) (hb : ∀ i j, D i j ≤ 1000) :
    OkPath alt (find_path
      (find_graph D (fun i => decide (alt i - alt e > 1000))) D 7 N (some e)) := by
  intro a b ha hb2
  set p := find_path
    (find_graph D (fun i => decide (alt i - alt e > 1000))) D 7 N (some e) with hp
  have hbe : b = e := by
    have := find_path_getLast_some
      (find_graph D (fun i => decide (alt i - alt e > 1000))) D 7 N e
    rw [← hp] at this
    rw [this] at hb2
    exact ((Option.some.injEq _ _).mp hb2).symm
  have hha : p.headD 0 = a := by
    rw [List.headD_eq_head?, ha]
    rfl
  have hnot := swh_start_notF D alt e N hnn hb
  rw [← hp, hha] at hnot
  have : ¬ (alt a - alt e > 1000) := of_decide_eq_false hnot
  subst hbe
  linarith [not_lt.mp this]

/-- The two possible outcomes of one loop iteration, with the updated
`best_path` made explicit. -/
theorem swhStep_shape (D : Nat → Nat → ℚ) (alt : Nat → ℚ) (N : Nat)
    (row : List ℚ) (calcd : List Nat) (lb : ℚ) (best : List Nat) (orig : List ℚ) :
    swhStep D alt N ⟨row, calcd, lb, best, orig⟩
      = Sum.inl ⟨setZeros (lastRow (find_graph D
              (fun j => decide (alt j - alt (listArgmax row) > 1000))) 7 N)
            (calcd ++ [(find_path (find_graph D
              (fun j => decide (alt j - alt (listArgmax row) > 1000))) D 7 N
              (some (listArgmax row))).getLastD 0]),
          calcd ++ [(find_path (find_graph D
              (fun j => decide (alt j - alt (listArgmax row) > 1000))) D 7 N
              (some (listArgmax row))).getLastD 0],
          (if lb < find_graph D
              (fun j => decide (alt j - alt (listArgmax row) > 1000)) 6 (listArgmax row)
            then find_graph D
              (fun j => decide (alt j - alt (listArgmax row) > 1000)) 6 (listArgmax row)
            else lb),
          (if lb < find_graph D
              (fun j => decide (alt j - alt (listArgmax row) > 1000)) 6 (listArgmax row)
            then find_path (find_graph D
              (fun j => decide (alt j - alt (listArgmax row) > 1000))) D 7 N
              (some (listArgmax row))
            else best),
          setZeros orig
            (calcd ++ [(find_path (find_graph D
              (fun j => decide (alt j - alt (listArgmax row) > 1000))) D 7 N
              (some (listArgmax row))).getLastD 0])⟩
      ∨ swhStep D alt N ⟨row, calcd, lb, best, orig⟩
        = Sum.inr (if lb < find_graph D
              (fun j => decide (alt j - alt (listArgmax row) > 1000)) 6 (listArgmax row)
            then find_path (find_graph D
              (fun j => decide (alt j - alt (listArgmax row) > 1000))) D 7 N
              (some (listArgmax row))
            else best) := by
  by_cases hany : ((setZeros orig
        (calcd ++ [(find_path (find_graph D
          (fun j => decide (alt j - alt (listArgmax row) > 1000))) D 7 N
          (some (listArgmax row))).getLastD 0])).any
      (fun x => decide ((if lb < find_graph D
          (fun j => decide (alt j - alt (listArgmax row) > 1000)) 6 (listArgmax row)
        then find_graph D
          (fun j => decide (alt j - alt (listArgmax row) > 1000)) 6 (listArgmax row)
        else lb) < x))) = true
  · left
    simp only [swhStep]
    rw [if_pos hany]
  · right
    simp only [swhStep]
    rw [if_neg hany]

/-- The loop returns only paths satisfying the altitude predicate, as long
as the incoming `best_path` satisfies it. -/
theorem swhLoop_best_ok (D : Nat → Nat → ℚ) (alt : Nat → ℚ) (N : Nat)
    (hnn : ∀ i j, 0 ≤ D i j) (hb : ∀ i j, D i j ≤ 1000) :
    ∀ (fuel : Nat) (s : HState) (path : List Nat), OkPath alt s.best →
      swhLoop D alt N fuel s = some path → OkPath alt path := by
  intro fuel
  induction fuel with
  | zero => intro s path _ h; cases h
  | succ f ih =>
    intro s path hbest h
    obtain ⟨row, calcd, lb, best, orig⟩ := s
    have hbest2 : OkPath alt (if lb < find_graph D
        (fun j => decide (alt j - alt (listArgmax row) > 1000)) 6 (listArgmax row)
      then find_path (find_graph D
        (fun j => decide (alt j - alt (listArgmax row) > 1000))) D 7 N
        (some (listArgmax row))
      else best) := by
      split
      · exact swh_iter_path_ok D alt (listArgmax row) N hnn hb
      · exact hbest
    rcases swhStep_shape D alt N row calcd lb best orig with hsh | hsh
    · rw [swhLoop, hsh] at h
      exact ih _ path hbest2 h
    · rw [swhLoop, hsh] at h
      have hp := Option.some.inj h
      rw [← hp]
      exact hbest2

/-- Claim C2: for every input (modelled by a distance matrix with the
properties the projection pipeline guarantees — entries non-negative and
bounded well below the sentinel scale — and an altitude array) with
`N ≥ 2`, any path returned by `score_with_height` satisfies the endpoint
altitude predicate `alt[path[0]] - alt[path[-1]] ≤ 1000`. -/
theorem C2_swh_altitude_predicate (D : Nat → Nat → ℚ) (alt : Nat → ℚ)
    (N fuel : Nat) (path : List Nat)
    (hnn : ∀ i j, 0 ≤ D i j) (hb : ∀ i j, D i j ≤ 1000) (hN : 2 ≤ N)
    (hres : score_with_height D alt N fuel = some path) :
    ∀ a b, path.head? = some a → path.getLast? = some b →
      alt a - alt b ≤ 1000 := by
  intro a b ha hbl
  simp only [score_with_height] at hres
  by_cases hc : check_alt alt
      (find_path (find_graph D (fun _ => false)) D 7 N none) = true
  · rw [if_pos hc] at hres
    have hpath : find_path (find_graph D (fun _ => false)) D 7 N none = path := by
      simpa using hres
    rw [hpath] at hc
    have hca : alt (path.headD 0) - alt (path.getLastD 0) ≤ 1000 :=
      of_decide_eq_true hc
    have h1 : path.headD 0 = a := by
      rw [List.headD_eq_head?, ha]; rfl
    have h2 : path.getLastD 0 = b := by
      rw [List.getLastD_eq_getLast?, hbl]; rfl
    rw [h1, h2] at hca
    exact hca
  · rw [if_neg hc] at hres
    have hok := swhLoop_best_ok D alt N hnn hb fuel
      ⟨lastRow (find_graph D (fun _ => false)) 7 N, [], 0, [],
        lastRow (find_graph D (fun _ => false)) 7 N⟩
      path (okPath_nil alt) hres
    exact hok a b ha hbl

/-- Concrete all-zero input used to witness the hypotheses of several
claims: two coincident fixes at equal altitude. -/
def zeroD : Nat → Nat → ℚ := fun _ _ => 0

/-- Constant-zero altitude array. -/
def zeroAlt : Nat → ℚ := fun _ => 0

/-- Witness for C2: on the all-zero two-fix input, `score_with_height`
returns the degenerate 7-vertex path and the predicate holds there. -/
theorem C2_swh_altitude_predicate_witness :
    zeroAlt 0 - zeroAlt 0 ≤ 1000 :=
  C2_swh_altitude_predicate zeroD zeroAlt 2 1 [0, 0, 0, 0, 0, 0, 0]
    (fun _ _ => le_refl 0) (fun _ _ => by norm_num [zeroD]) (by norm_num)
    (by norm_num [score_with_height, check_alt, find_path, find_path_rev,
      find_graph, lastRowsFlatten, lastRow, listMax, listArgmax, qmax,
      prefixRow, zeroD, zeroAlt, List.range_succ])
    0 0 (by decide) (by decide)

/-- Claim C8: in every iteration of `score_with_height`'s loop (endpoint
`e`, forbidden mask `alt[j] - alt[e] > 1000`), neither `assert` fires:
the reconstructed path never starts at a forbidden index, and it
satisfies the altitude predicate — the `-10000` sentinel written into
`G[0, k]` for masked `k` dominates any achievable sum of projected
distances (here bounded by 1000 per entry, far above the radian scale of
the real pipeline). -/
theorem C8_asserts_never_fire (D : Nat → Nat → ℚ) (alt : Nat → ℚ) (e N : Nat)
    (hnn : ∀ i j, 0 ≤ D i j) (hb : ∀ i j, D i j ≤ 1000) :
    (∀ j, decide (alt j - alt e > 1000) = true →
        (find_path (find_graph D (fun i => decide (alt i - alt e > 1000)))
          D 7 N (some e)).headD 0 ≠ j)
    ∧ check_alt alt (find_path
        (find_graph D (fun i => decide (alt i - alt e > 1000)))
        D 7 N (some e)) = true := by
  have hstart := swh_start_notF D alt e N hnn hb
  constructor
  · intro j hj hq
    rw [hq] at hstart
    rw [hj] at hstart
    cases hstart
  · unfold check_alt
    have hlast := find_path_getLastD_some
      (find_graph D (fun i => decide (alt i - alt e > 1000))) D 7 N e
    rw [hlast]
    have hle : alt ((find_path
        (find_graph D (fun i => decide (alt i - alt e > 1000)))
        D 7 N (some e)).headD 0) - alt e ≤ 1000 := by
      have := of_decide_eq_false hstart
      linarith [not_lt.mp this]
    exact decide_eq_true hle

/-- Witness for C8 at the all-zero two-fix input. -/
theorem C8_asserts_never_fire_witness :
    (∀ j, decide (zeroAlt j - zeroAlt 0 > 1000) = true →
        (find_path (find_graph zeroD (fun i => decide (zeroAlt i - zeroAlt 0 > 1000)))
          zeroD 7 2 (some 0)).headD 0 ≠ j)
    ∧ check_alt zeroAlt (find_path
        (find_graph zeroD (fun i => decide (zeroAlt i - zeroAlt 0 > 1000)))
        zeroD 7 2 (some 0)) = true :=
  C8_asserts_never_fire zeroD zeroAlt 0 2
    (fun _ _ => le_refl 0) (fun _ _ => by norm_num [zeroD])

theorem getD_reverse (l : List Nat) (i : Nat) (hi : i < l.length) :
    (l.reverse).getD i 0 = l.getD (l.length - 1 - i) 0 := by
  rw [List.getD_eq_getElem?_getD, List.getD_eq_getElem?_getD,
    List.getElem?_reverse hi]

/-- Claim C3: on the unmasked graph, `find_path` with explicit endpoint
`e` returns a path of exactly `layers` indices ending at `e` whose total
`Σ D[path[t], path[t+1]]` equals `G[layers-1, e]`, and each backward step
picks the smallest `j ≤ cur` realising the maximum of
`D[cur, j] + G[l, j]`. -/
theorem C3_find_path_realises_table (D : Nat → Nat → ℚ)
    (hsym : ∀ i j, D i j = D j i) (hnn : ∀ i j, 0 ≤ D i j)
    (hdiag : ∀ i, D i i = 0) (L N e : Nat) (hL : 1 ≤ L) :
    (find_path (find_graph D (fun _ => false)) D L N (some e)).length = L
    ∧ (find_path (find_graph D (fun _ => false)) D L N (some e)).getLast? = some e
    ∧ pathScore D (find_path (find_graph D (fun _ => false)) D L N (some e))
        = find_graph D (fun _ => false) (L - 1) e
    ∧ (∀ t, t + 1 < L →
        (find_path (find_graph D (fun _ => false)) D L N (some e)).getD t 0
          = listArgmax (prefixRow (fun j =>
              D ((find_path (find_graph D (fun _ => false)) D L N (some e)).getD (t+1) 0) j
                + find_graph D (fun _ => false) t j)
              ((find_path (find_graph D (fun _ => false)) D L N (some e)).getD (t+1) 0)))
    ∧ (∀ t, t + 1 < L →
        (D ((find_path (find_graph D (fun _ => false)) D L N (some e)).getD (t+1) 0)
            ((find_path (find_graph D (fun _ => false)) D L N (some e)).getD t 0)
          + find_graph D (fun _ => false) t
            ((find_path (find_graph D (fun _ => false)) D L N (some e)).getD t 0)
          = listMax (prefixRow (fun j =>
              D ((find_path (find_graph D (fun _ => false)) D L N (some e)).getD (t+1) 0) j
                + find_graph D (fun _ => false) t j)
              ((find_path (find_graph D (fun _ => false)) D L N (some e)).getD (t+1) 0)))
        ∧ ∀ j, j ≤ (find_path (find_graph D (fun _ => false)) D L N (some e)).getD (t+1) 0 →
            listMax (prefixRow (fun i =>
              D ((find_path (find_graph D (fun _ => false)) D L N (some e)).getD (t+1) 0) i
                + find_graph D (fun _ => false) t i)
              ((find_path (find_graph D (fun _ => false)) D L N (some e)).getD (t+1) 0))
              ≤ D ((find_path (find_graph D (fun _ => false)) D L N (some e)).getD (t+1) 0) j
                + find_graph D (fun _ => false) t j →
            (find_path (find_graph D (fun _ => false)) D L N (some e)).getD t 0 ≤ j) := by
  set g := find_graph D (fun _ => false) with hg
  set p := find_path g D L N (some e) with hp
  have hrev : p = (find_path_rev g D (L - 1) e).reverse := find_path_some g D L N e
  have hlen : p.length = L := by
    rw [hp, find_path_length_some]
    omega
  have hfprlen : (find_path_rev g D (L - 1) e).length = L := by
    rw [fpr_length]
    omega
  -- index bridge between the path and the reversed accumulator
  have hidx : ∀ t, t < L → p.getD t 0 = (find_path_rev g D (L - 1) e).getD (L - 1 - t) 0 := by
    intro t ht
    rw [hrev, getD_reverse _ _ (by rw [hfprlen]; exact ht), hfprlen]
  have hstep : ∀ t, t + 1 < L →
      p.getD t 0
        = listArgmax (prefixRow (fun j => D (p.getD (t+1) 0) j + g t j)
            (p.getD (t+1) 0)) := by
    intro t ht
    have h1 : p.getD t 0 = (find_path_rev g D (L - 1) e).getD (L - 1 - t) 0 :=
      hidx t (by omega)
    have h2 : p.getD (t+1) 0 = (find_path_rev g D (L - 1) e).getD (L - 2 - t) 0 :=
      by
        rw [hidx (t+1) ht]
        congr 1
        omega
    have h3 : L - 1 - t = (L - 2 - t) + 1 := by omega
    have h4 := fpr_getD_succ g D (L - 1) e (L - 2 - t) (by omega)
    have h5 : L - 1 - 1 - (L - 2 - t) = t := by omega
    rw [h5] at h4
    rw [h1, h3, h4, ← h2]
  refine ⟨hlen, ?_, ?_, hstep, ?_⟩
  · rw [hp]
    exact find_path_getLast_some g D L N e
  · rw [hrev, pathScore_reverse D hsym, fpr_score D (L - 1) e]
  · intro t ht
    have h1 := hstep t ht
    constructor
    · have := prefixArgmax_val
        (fun j => D (p.getD (t+1) 0) j + g t j) (p.getD (t+1) 0)
      rw [← h1] at this
      exact this
    · intro j hj hmax
      have := prefixArgmax_min
        (fun i => D (p.getD (t+1) 0) i + g t i) (p.getD (t+1) 0) j hj hmax
      rw [← h1] at this
      exact this

/-- Witness for C3 on the all-zero matrix with endpoint 0. -/
theorem C3_find_path_realises_table_witness :
    (find_path (find_graph zeroD (fun _ => false)) zeroD 7 1 (some 0)).length = 7
    ∧ (find_path (find_graph zeroD (fun _ => false)) zeroD 7 1 (some 0)).getLast? = some 0
    ∧ pathScore zeroD (find_path (find_graph zeroD (fun _ => false)) zeroD 7 1 (some 0))
        = find_graph zeroD (fun _ => false) (7 - 1) 0
    ∧ (∀ t, t + 1 < 7 →
        (find_path (find_graph zeroD (fun _ => false)) zeroD 7 1 (some 0)).getD t 0
          = listArgmax (prefixRow (fun j =>
              zeroD ((find_path (find_graph zeroD (fun _ => false)) zeroD 7 1 (some 0)).getD (t+1) 0) j
                + find_graph zeroD (fun _ => false) t j)
              ((find_path (find_graph zeroD (fun _ => false)) zeroD 7 1 (some 0)).getD (t+1) 0)))
    ∧ (∀ t, t + 1 < 7 →
        (zeroD ((find_path (find_graph zeroD (fun _ => false)) zeroD 7 1 (some 0)).getD (t+1) 0)
            ((find_path (find_graph zeroD (fun _ => false)) zeroD 7 1 (some 0)).getD t 0)
          + find_graph zeroD (fun _ => false) t
            ((find_path (find_graph zeroD (fun _ => false)) zeroD 7 1 (some 0)).getD t 0)
          = listMax (prefixRow (fun j =>
              zeroD ((find_path (find_graph zeroD (fun _ => false)) zeroD 7 1 (some 0)).getD (t+1) 0) j
                + find_graph zeroD (fun _ => false) t j)
              ((find_path (find_graph zeroD (fun _ => false)) zeroD 7 1 (some 0)).getD (t+1) 0)))
        ∧ ∀ j, j ≤ (find_path (find_graph zeroD (fun _ => false)) zeroD 7 1 (some 0)).getD (t+1) 0 →
            listMax (prefixRow (fun i =>
              zeroD ((find_path (find_graph zeroD (fun _ => false)) zeroD 7 1 (some 0)).getD (t+1) 0) i
                + find_graph zeroD (fun _ => false) t i)
              ((find_path (find_graph zeroD (fun _ => false)) zeroD 7 1 (some 0)).getD (t+1) 0))
              ≤ zeroD ((find_path (find_graph zeroD (fun _ => false)) zeroD 7 1 (some 0)).getD (t+1) 0) j
                + find_graph zeroD (fun _ => false) t j →
            (find_path (find_graph zeroD (fun _ => false)) zeroD 7 1 (some 0)).getD t 0 ≤ j) :=
  C3_find_path_realises_table zeroD
    (fun _ _ => rfl) (fun _ _ => le_refl 0) (fun _ => rfl) 7 1 0 (by norm_num)

/-- Claim C1: with the empty forbidden set, the table produced by
`find_graph` realises the spec's semantic definition: `G[l, k]` is the
maximum of `Σ D[i_(t-1), i_t]` over all non-decreasing index sequences
`i0 ≤ i1 ≤ … ≤ il = k` — the maximum is attained by some sequence, and it
bounds every sequence. -/
theorem C1_graph_is_max (D : Nat → Nat → ℚ)
    (hsym : ∀ i j, D i j = D j i) (hnn : ∀ i j, 0 ≤ D i j)
    (hdiag : ∀ i, D i i = 0) (l k : Nat) :
    (∃ p, IsLegSeq l k p
        ∧ pathScore D p = find_graph D (fun _ => false) l k)
    ∧ (∀ p, IsLegSeq l k p
        → pathScore D p ≤ find_graph D (fun _ => false) l k) := by
  induction l generalizing k with
  | zero =>
    have h0 : find_graph D (fun _ => false) 0 k = 0 := by
      rw [find_graph_zero]
      simp
    constructor
    · refine ⟨[k], ⟨rfl, List.chain'_singleton k, rfl⟩, ?_⟩
      rw [h0]
      rfl
    · rintro p ⟨hplen, _, hplast⟩
      cases p with
      | nil => cases hplen
      | cons a t =>
        cases t with
        | nil =>
          rw [h0]
          exact le_refl 0
        | cons b t2 => simp at hplen
  | succ l ih =>
    constructor
    · obtain ⟨j, hjk, hmax⟩ :=
        prefixMax_achieved (fun i => find_graph D (fun _ => false) l i + D k i) k
      obtain ⟨⟨q, ⟨hqlen, hqch, hqlast⟩, hqscore⟩, _⟩ := ih j
      refine ⟨q ++ [k], ⟨?_, ?_, ?_⟩, ?_⟩
      · rw [List.length_append, hqlen]
        rfl
      · refine List.chain'_append.mpr ⟨hqch, List.chain'_singleton k, ?_⟩
        intro x hx y hy
        rw [hqlast] at hx
        have hxj : x = j := by
          have := hx
          simp at this
          exact this.symm
        have hyk : y = k := by
          have := hy
          simp at this
          exact this.symm
        rw [hxj, hyk]
        exact hjk
      · exact List.getLast?_concat q
      · rw [pathScore_append_last D q j k hqlast, hqscore]
        have h1 : find_graph D (fun _ => false) l j + D j k
            = find_graph D (fun _ => false) l j + D k j := by
          rw [hsym j k]
        rw [h1]
        have h2 : find_graph D (fun _ => false) l j + D k j
            = listMax (prefixRow
                (fun i => find_graph D (fun _ => false) l i + D k i) k) :=
          hmax.symm
        rw [h2, ← find_graph_succ]
    · rintro p ⟨hplen, hpch, hplast⟩
      have hpne : p ≠ [] := by
        intro h
        rw [h] at hplen
        cases hplen
      have hlastk : p.getLast hpne = k := by
        have := List.getLast?_eq_getLast p hpne
        rw [hplast] at this
        exact (Option.some.injEq _ _).mp this.symm
      have hq : p.dropLast ++ [k] = p := by
        have := List.dropLast_append_getLast hpne
        rw [hlastk] at this
        exact this
      have hqlen : p.dropLast.length = l + 1 := by
        rw [List.length_dropLast, hplen]
        omega
      have hqne : p.dropLast ≠ [] := by
        intro h
        rw [h] at hqlen
        cases hqlen
      have hqlast : p.dropLast.getLast? = some (p.dropLast.getLast hqne) :=
        List.getLast?_eq_getLast _ hqne
      set j := p.dropLast.getLast hqne with hj
      have hsplit := List.chain'_append.mp (by rw [hq]; exact hpch)
      have hjk : j ≤ k := by
        refine hsplit.2.2 j ?_ k ?_
        · rw [hqlast]
          rfl
        · rfl
      have hqch : List.Chain' (· ≤ ·) p.dropLast := hsplit.1
      have hscore : pathScore D p = pathScore D p.dropLast + D j k := by
        conv_lhs => rw [← hq]
        exact pathScore_append_last D p.dropLast j k hqlast
      have hbound := (ih j).2 p.dropLast ⟨hqlen, hqch, hqlast⟩
      rw [hscore, find_graph_succ]
      have h3 : find_graph D (fun _ => false) l j + D k j
          ≤ listMax (prefixRow
              (fun i => find_graph D (fun _ => false) l i + D k i) k) :=
        le_prefixMax (fun i => find_graph D (fun _ => false) l i + D k i) k j hjk
      rw [hsym j k]
      linarith

/-- Witness for C1 at the all-zero matrix, two legs, endpoint 1. -/
theorem C1_graph_is_max_witness :
    (∃ p, IsLegSeq 2 1 p
        ∧ pathScore zeroD p = find_graph zeroD (fun _ => false) 2 1)
    ∧ (∀ p, IsLegSeq 2 1 p
        → pathScore zeroD p ≤ find_graph zeroD (fun _ => false) 2 1) :=
  C1_graph_is_max zeroD (fun _ _ => rfl) (fun _ _ => le_refl 0) (fun _ => rfl) 2 1

/-- Claim C7: an extra leg that loops on `k` is free (`D[k,k] = 0`), so
`G[l+1, k] ≥ G[l, k]`, and consequently raising `self.layers` from `L` to
`L+1` cannot decrease the DP total `max_k G[L-1, k]` over `k < N`. -/
theorem C7_extra_layer_free (D : Nat → Nat → ℚ)
    (hsym : ∀ i j, D i j = D j i) (hnn : ∀ i j, 0 ≤ D i j)
    (hdiag : ∀ i, D i i = 0) :
    (∀ l k, find_graph D (fun _ => false) l k
        ≤ find_graph D (fun _ => false) (l+1) k)
    ∧ (∀ L N, 1 ≤ L → 1 ≤ N → dpTotal D L N ≤ dpTotal D (L+1) N) := by
  have hpart1 : ∀ l k, find_graph D (fun _ => false) l k
      ≤ find_graph D (fun _ => false) (l+1) k := by
    intro l k
    rw [find_graph_succ]
    have h : find_graph D (fun _ => false) l k + D k k
        ≤ listMax (prefixRow
            (fun j => find_graph D (fun _ => false) l j + D k j) k) :=
      le_prefixMax (fun j => find_graph D (fun _ => false) l j + D k j) k k
        (le_refl k)
    rw [hdiag k] at h
    linarith
  refine ⟨hpart1, ?_⟩
  intro L N hL hN
  unfold dpTotal lastRow
  have hrow : ∀ M : Nat, (List.range N).map (find_graph D (fun _ => false) M)
      = prefixRow (find_graph D (fun _ => false) M) (N-1) := by
    intro M
    unfold prefixRow
    rw [show N - 1 + 1 = N from by omega]
  rw [hrow, hrow]
  refine prefixMax_le _ _ _ ?_
  intro j hj
  have h1 : find_graph D (fun _ => false) (L-1) j
      ≤ find_graph D (fun _ => false) ((L-1)+1) j := hpart1 (L-1) j
  have h2 : (L-1)+1 = L+1-1 := by omega
  rw [h2] at h1
  exact le_trans h1
    (le_prefixMax (find_graph D (fun _ => false) (L+1-1)) (N-1) j hj)

/-- Witness for C7 at the all-zero matrix. -/
theorem C7_extra_layer_free_witness :
    (∀ l k, find_graph zeroD (fun _ => false) l k
        ≤ find_graph zeroD (fun _ => false) (l+1) k)
    ∧ (∀ L N, 1 ≤ L → 1 ≤ N → dpTotal zeroD L N ≤ dpTotal zeroD (L+1) N) :=
  C7_extra_layer_free zeroD (fun _ _ => rfl) (fun _ _ => le_refl 0) (fun _ => rfl)

/-- Positions of three collinear fixes at coordinates 0, 10, 1: the third
fix backtracks between the first two. -/
def linePos : Nat → ℚ := fun n => if n = 0 then 0 else if n = 1 then 10 else 1

/-- Distance matrix of the collinear configuration — a genuine metric
(symmetric, non-negative, zero diagonal, and even satisfying the triangle
inequality). -/
def lineD : Nat → Nat → ℚ := fun i j => |linePos i - linePos j|

/-- Counterexample to claim C6 as stated: `lineD` is a symmetric
non-negative distance matrix with zero diagonal, yet
`G[1, 2] = 9 < 10 = G[1, 1]` — the best single leg ending at fix 2
(backtracked to coordinate 1) is shorter than the best single leg ending
at fix 1 (coordinate 10); rows of the table are not monotone in `k`. -/
theorem C6_counterexample :
    (∀ i j, lineD i j = lineD j i) ∧ (∀ i j, 0 ≤ lineD i j)
    ∧ (∀ i, lineD i i = 0)
    ∧ ¬ (find_graph lineD (fun _ => false) 1 1
          ≤ find_graph lineD (fun _ => false) 1 2) := by
  refine ⟨?_, ?_, ?_, ?_⟩
  · intro i j
    exact abs_sub_comm _ _
  · intro i j
    exact abs_nonneg _
  · intro i
    simp [lineD]
  · norm_num [find_graph, listMax, qmax, prefixRow, lineD, linePos,
      List.range_succ]

/-- Claim C6, amended: what is monotone in `k` is the running row maximum
`max over the first k+1 entries of G[l, ·]` — the optimum over paths
ending at any index up to `k` — not the individual entry `G[l, k]`. -/
theorem C6_amended_running_max (D : Nat → Nat → ℚ)
    (hsym : ∀ i j, D i j = D j i) (hnn : ∀ i j, 0 ≤ D i j)
    (hdiag : ∀ i, D i i = 0) (l k : Nat) :
    listMax (prefixRow (find_graph D (fun _ => false) l) k)
      ≤ listMax (prefixRow (find_graph D (fun _ => false) l) (k+1)) := by
  refine prefixMax_le _ _ _ ?_
  intro j hj
  exact le_prefixMax _ _ _ (by omega)

/-- Witness for the amended C6 at the all-zero matrix. -/
theorem C6_amended_running_max_witness :
    listMax (prefixRow (find_graph zeroD (fun _ => false) 0) 0)
      ≤ listMax (prefixRow (find_graph zeroD (fun _ => false) 0) 1) :=
  C6_amended_running_max zeroD (fun _ _ => rfl) (fun _ _ => le_refl 0)
    (fun _ => rfl) 0 0

/-- Claim C9: the un-parenthesised slice `graph[self.layers-1:]` of the
`(layers, knots)` table contains exactly the last row, so the flattened
`np.argmax` over it is the smallest index maximising `G[layers-1, ·]`;
in particular `find_path` with `reverse_from=None` behaves exactly as
`find_path` with that endpoint. -/
theorem C9_slice_argmax_is_row_argmax (graph D : Nat → Nat → ℚ)
    (layers knots : Nat) (hl : 1 ≤ layers) (hk : 1 ≤ knots) :
    lastRowsFlatten graph layers knots
        = (List.range knots).map (graph (layers - 1))
    ∧ find_path graph D layers knots none
        = find_path graph D layers knots
            (some (listArgmax (lastRowsFlatten graph layers knots)))
    ∧ listArgmax (lastRowsFlatten graph layers knots) < knots
    ∧ (∀ k, k < knots → graph (layers - 1) k
        ≤ graph (layers - 1) (listArgmax (lastRowsFlatten graph layers knots)))
    ∧ (∀ k, k < knots →
        graph (layers - 1) (listArgmax (lastRowsFlatten graph layers knots))
          ≤ graph (layers - 1) k →
        listArgmax (lastRowsFlatten graph layers knots) ≤ k) := by
  have hdrop : (List.range layers).drop (layers - 1) = [layers - 1] := by
    obtain ⟨m, rfl⟩ : ∃ m, layers = m + 1 := ⟨layers - 1, by omega⟩
    rw [List.range_succ]
    have hm : m + 1 - 1 = m := by omega
    rw [hm]
    have hlen : (List.range m).length = m := List.length_range m
    calc (List.range m ++ [m]).drop m
        = (List.range m ++ [m]).drop (List.range m).length := by rw [hlen]
      _ = [m] := List.drop_left _ _
  have hflat : lastRowsFlatten graph layers knots
      = (List.range knots).map (graph (layers - 1)) := by
    unfold lastRowsFlatten
    rw [hdrop]
    simp
  have hpref : (List.range knots).map (graph (layers - 1))
      = prefixRow (graph (layers - 1)) (knots - 1) := by
    unfold prefixRow
    rw [show knots - 1 + 1 = knots from by omega]
  refine ⟨hflat, rfl, ?_, ?_, ?_⟩
  · rw [hflat, hpref]
    have := prefixArgmax_le (graph (layers - 1)) (knots - 1)
    omega
  · intro k hkk
    rw [hflat, hpref]
    have h1 := prefixArgmax_val (graph (layers - 1)) (knots - 1)
    rw [h1]
    exact le_prefixMax (graph (layers - 1)) (knots - 1) k (by omega)
  · intro k hkk hle
    rw [hflat, hpref] at hle ⊢
    refine prefixArgmax_min (graph (layers - 1)) (knots - 1) k (by omega) ?_
    have h1 := prefixArgmax_val (graph (layers - 1)) (knots - 1)
    rw [← h1]
    exact hle

/-- Witness for C9 on the all-zero table. -/
theorem C9_slice_argmax_is_row_argmax_witness :
    lastRowsFlatten zeroD 7 2 = (List.range 2).map (zeroD (7 - 1))
    ∧ find_path zeroD zeroD 7 2 none
        = find_path zeroD zeroD 7 2
            (some (listArgmax (lastRowsFlatten zeroD 7 2)))
    ∧ listArgmax (lastRowsFlatten zeroD 7 2) < 2
    ∧ (∀ k, k < 2 → zeroD (7 - 1) k
        ≤ zeroD (7 - 1) (listArgmax (lastRowsFlatten zeroD 7 2)))
    ∧ (∀ k, k < 2 →
        zeroD (7 - 1) (listArgmax (lastRowsFlatten zeroD 7 2))
          ≤ zeroD (7 - 1) k →
        listArgmax (lastRowsFlatten zeroD 7 2) ≤ k) :=
  C9_slice_argmax_is_row_argmax zeroD zeroD 7 2 (by norm_num) (by norm_num)

/-- Two (or three) fixes pairwise at distance 1 (an equilateral
configuration in the projected plane): `D[i,j] = 0` on the diagonal and
`1` off it. -/
def unitD : Nat → Nat → ℚ := fun i j => if i = j then 0 else 1

/-- Altitudes `[2000, 0, 0, …]`: the first fix is 2000 m above the rest. -/
def twoAlt : Nat → ℚ := fun j => if j = 0 then 2000 else 0

theorem unitD_symm : ∀ i j, unitD i j = unitD j i := by
  intro i j
  by_cases h : i = j
  · subst h
    rfl
  · show (if i = j then (0:ℚ) else 1) = (if j = i then 0 else 1)
    rw [if_neg h, if_neg (Ne.symm h)]

theorem unitD_nonneg : ∀ i j, 0 ≤ unitD i j := by
  intro i j
  show (0:ℚ) ≤ if i = j then 0 else 1
  split
  · exact le_refl 0
  · norm_num

theorem unitD_diag : ∀ i, unitD i i = 0 := by
  intro i
  simp [unitD]

/-- Claim C10: on the two-fix input with `alt = [2000, 0]` (distinct
positions, valid distance matrix), the unconstrained optimum violates the
altitude predicate, every feasible candidate has constrained DP score 0,
`distance > lower_bound` never fires, and `score_with_height` returns the
initial `best_path = []` — while `score` on the same input returns the
full 7-vertex path. -/
theorem C10_swh_returns_empty_path :
    (∀ i j, unitD i j = unitD j i) ∧ (∀ i j, 0 ≤ unitD i j)
    ∧ (∀ i, unitD i i = 0)
    ∧ score_with_height unitD twoAlt 2 1 = some []
    ∧ score unitD 2 = [0, 0, 0, 0, 0, 0, 1]
    ∧ (score unitD 2).length = 7 := by
  refine ⟨unitD_symm, unitD_nonneg, unitD_diag, ?_, ?_, ?_⟩
  · norm_num [score_with_height, swhLoop, swhStep, check_alt, find_path,
      find_path_rev, find_graph, lastRowsFlatten, lastRow, setZeros,
      listMax, listArgmax, qmax, prefixRow, unitD, twoAlt,
      List.range_succ, List.getLastD]
  · norm_num [score, find_path, find_path_rev, find_graph, lastRowsFlatten,
      listMax, listArgmax, qmax, prefixRow, unitD, List.range_succ]
  · norm_num [score, find_path, find_path_rev, find_graph, lastRowsFlatten,
      listMax, listArgmax, qmax, prefixRow, unitD, List.range_succ]

/-- Claim C5 (failing behaviour): for degenerate inputs with fewer than
two fixes the code has no guard.  `simple_dist_matrix` feeds the empty
condensed distance vector to `scipy.spatial.distance.squareform`, which
returns a 1×1 zero matrix for it, so the pipeline continues with
`knots = 1` and the all-zero matrix: `score` returns the 7-vertex path
`[0]*7` — not the empty path the spec requires — and `score_with_height`
on a single fix (alt modelled as constant) likewise returns `[0]*7`
(for N = 0 its `check_alt` indexes the empty altitude array, an
`IndexError`). -/
theorem C5_degenerate_returns_seven_zeros :
    score zeroD 1 = [0, 0, 0, 0, 0, 0, 0]
    ∧ score zeroD 1 ≠ []
    ∧ score_with_height zeroD zeroAlt 1 1 = some [0, 0, 0, 0, 0, 0, 0] := by
  refine ⟨?_, ?_, ?_⟩
  · norm_num [score, find_path, find_path_rev, find_graph, lastRowsFlatten,
      listMax, listArgmax, qmax, prefixRow, zeroD, List.range_succ]
  · intro h
    have h2 : score zeroD 1 = [0, 0, 0, 0, 0, 0, 0] := by
      norm_num [score, find_path, find_path_rev, find_graph, lastRowsFlatten,
        listMax, listArgmax, qmax, prefixRow, zeroD, List.range_succ]
    rw [h] at h2
    cases h2
  · norm_num [score_with_height, check_alt, find_path, find_path_rev,
      find_graph, lastRowsFlatten, lastRow, listMax, listArgmax, qmax,
      prefixRow, zeroD, zeroAlt, List.range_succ, List.getLastD]

/-- Altitudes `[2000, 2000, 0, 0, …]` for the three-fix equilateral
configuration: the first two fixes are 2000 m above the third. -/
def triAlt : Nat → ℚ := fun j => if j ≤ 1 then 2000 else 0

/-- The zeroed last row the loop reaches after its first iteration on the
equilateral input: columns 0 and 1 carry near-sentinel values (their
starts are masked), column 2 is zeroed. -/
def triRow : List ℚ := [-10000, -9999, 0]

/-- The last row of `original_graph` after the first iteration: only
column 1 still holds a positive unconstrained score. -/
def triOrig : List ℚ := [0, 1, 0]

theorem setZeros_two_fixed (r : List ℚ) (hr : r.set 2 0 = r) :
    ∀ idxs : List Nat, (∀ j ∈ idxs, j = 2) → setZeros r idxs = r := by
  intro idxs
  induction idxs with
  | nil => intro _; rfl
  | cons a t ih =>
    intro h
    have ha : a = 2 := h a (List.mem_cons_self a t)
    show setZeros (r.set a 0) t = r
    rw [ha, hr]
    exact ih (fun j hj => h j (List.mem_cons_of_mem a hj))

theorem all_two_append (cd : List Nat) (hcd : ∀ j ∈ cd, j = 2) :
    ∀ j ∈ cd ++ [2], j = 2 := by
  intro j hj
  rcases List.mem_append.mp hj with h | h
  · exact hcd j h
  · simpa using h

/-- One loop iteration from the post-first-iteration state reproduces the
same row, lower bound and `original_graph` row, only appending another
copy of endpoint 2 to `calculated`: the loop cannot make progress. -/
theorem triStep (cd bp : List Nat) (hcd : ∀ j ∈ cd, j = 2) :
    swhStep unitD triAlt 3 ⟨triRow, cd, 0, bp, triOrig⟩
      = Sum.inl ⟨triRow, cd ++ [2], 0, bp, triOrig⟩ := by
  have he : listArgmax triRow = 2 := by
    norm_num [triRow, listArgmax, listMax, qmax]
  have hpath : find_path (find_graph unitD
      (fun j => decide (triAlt j - triAlt 2 > 1000))) unitD 7 3 (some 2)
      = [2, 2, 2, 2, 2, 2, 2] := by
    norm_num [find_path, find_path_rev, find_graph, listMax, listArgmax,
      qmax, prefixRow, unitD, triAlt, List.range_succ]
  have hdist : find_graph unitD
      (fun j => decide (triAlt j - triAlt 2 > 1000)) 6 2 = 0 := by
    norm_num [find_graph, listMax, qmax, prefixRow, unitD, triAlt,
      List.range_succ]
  have hlr : lastRow (find_graph unitD
      (fun j => decide (triAlt j - triAlt 2 > 1000))) 7 3 = triRow := by
    norm_num [lastRow, find_graph, listMax, qmax, prefixRow, unitD, triAlt,
      triRow, List.range_succ]
  have hany : (triOrig.any (fun x => decide ((0:ℚ) < x))) = true := by
    norm_num [triOrig]
  simp only [swhStep]
  rw [he, hpath, hdist]
  rw [if_neg (lt_irrefl (0:ℚ))]
  rw [if_neg (lt_irrefl (0:ℚ))]
  have hlastd : ([2, 2, 2, 2, 2, 2, 2] : List Nat).getLastD 0 = 2 := rfl
  rw [hlastd, hlr]
  rw [setZeros_two_fixed triRow rfl (cd ++ [2]) (all_two_append cd hcd)]
  rw [setZeros_two_fixed triOrig rfl (cd ++ [2]) (all_two_append cd hcd)]
  rw [if_pos hany]

/-- No amount of fuel lets the loop return from the self-reproducing
state. -/
theorem triLoop_none : ∀ (fuel : Nat) (cd bp : List Nat),
    (∀ j ∈ cd, j = 2) →
    swhLoop unitD triAlt 3 fuel ⟨triRow, cd, 0, bp, triOrig⟩ = none := by
  intro fuel
  induction fuel with
  | zero => intro cd bp _; rfl
  | succ f ih =>
    intro cd bp hcd
    rw [swhLoop, triStep cd bp hcd]
    exact ih (cd ++ [2]) bp (all_two_append cd hcd)

/-- Claim C4 (failing behaviour): on the three-fix equilateral input with
altitudes `[2000, 2000, 0]`, the branch-and-bound loop of
`score_with_height` never terminates: after its first iteration it keeps
re-selecting the already-zeroed endpoint 2, zeroing nothing new, while
column 1 of `original_graph` stays above the lower bound forever.  The
fuelled model returns `none` for every fuel. -/
theorem C4_loop_diverges (fuel : Nat) :
    score_with_height unitD triAlt 3 fuel = none := by
  have hca : check_alt triAlt
      (find_path (find_graph unitD (fun _ => false)) unitD 7 3 none) = false := by
    norm_num [check_alt, find_path, find_path_rev, find_graph,
      lastRowsFlatten, listMax, listArgmax, qmax, prefixRow, unitD, triAlt,
      List.range_succ, List.getLastD]
  have hrow0 : lastRow (find_graph unitD (fun _ => false)) 7 3
      = [0, 1, 2] := by
    norm_num [lastRow, find_graph, listMax, qmax, prefixRow, unitD,
      List.range_succ]
  have hstep0 : swhStep unitD triAlt 3 ⟨[0, 1, 2], [], 0, [], [0, 1, 2]⟩
      = Sum.inl ⟨triRow, [2], 0, [], triOrig⟩ := by
    norm_num [swhStep, find_path, find_path_rev, find_graph, check_alt,
      lastRow, lastRowsFlatten, setZeros, listMax, listArgmax, qmax,
      prefixRow, unitD, triAlt, triRow, triOrig, List.range_succ,
      List.getLastD]
  simp only [score_with_height]
  rw [hca]
  simp only [Bool.false_eq_true, if_false]
  rw [hrow0]
  cases fuel with
  | zero => rfl
  | succ f =>
    rw [swhLoop, hstep0]
    exact triLoop_none f [2] [] (by intro j hj; simpa using hj)
